import Mathlib

/-!
Verification of the Entify entity-resolution engine against its
natural-language specification.

The development shallowly embeds the matching and clustering code of the
repository:

* the browser worker matcher in
  frontend/public/python/splink_worker.py
  (blocking, candidate-pair generation, Fellegi-Sunter scoring,
  threshold filtering, ordering and limits of the predict SQL);
* the backend engine in backend/engine.py
  (RuleTranspiler.compile_part and compile_rule, analyze_thresholds,
  get_clusters, get_clusters_data, get_cluster_stats);
* the service layer in backend/services/splink_service.py
  (rule_is_valid blocking-rule validation, process_entity_resolution
  status handling).

Machine floats of the source are embedded as rationals where the code
only filters, sorts and counts them, and as real numbers where the
analytic form of the score (log2, exp) is itself the property at stake.
External SQL predicates appearing inside generated queries are embedded
as boolean-valued functions on records, matching the shape of the
generated SQL rather than re-parsing its text.
-/

namespace Entify

/-- A source record: the value of the unique-id column (an opaque
comparable scalar, embedded as a natural number, compared by the SQL
operator less-than exactly as the worker query compares the id column)
together with the value of the name column used by the worker default
blocking rule. -/
structure Record where
  id : Nat
  name : String
  deriving DecidableEq, Repr

/-- The worker default blocking condition used by
SplinkCompatibleMatcher.predict when no blocking rules are configured:
substr(CAST(l.name AS VARCHAR), 1, 1) = substr(CAST(r.name AS VARCHAR), 1, 1),
i.e. the first character of the name column agrees. -/
def defaultBlockingPred (l r : Record) : Bool :=
  l.name.take 1 = r.name.take 1

/-- The join condition built by SplinkCompatibleMatcher.predict step 1:
the OR of the configured blocking rules, or the default first-letter rule
when the rule list is empty.  Each already-parsed blocking rule is
embedded as a boolean SQL predicate over the pair of joined rows. -/
def blockingPred (rules : List (Record → Record → Bool)) (l r : Record) : Bool :=
  match rules with
  | [] => defaultBlockingPred l r
  | _ => rules.any (fun rule => rule l r)

/-- The rows of the candidate_pairs CTE before the LIMIT clause:
SELECT DISTINCT ... FROM t l INNER JOIN t r ON (blocking)
WHERE l.id < r.id. -/
def joinPairs (recs : List Record) (rules : List (Record → Record → Bool)) :
    List (Record × Record) :=
  ((recs.product recs).filter
    (fun p => blockingPred rules p.1 p.2 && decide (p.1.id < p.2.id))).dedup

/-- The candidate_pairs CTE of the predict SQL: the distinct blocked
pairs truncated by LIMIT 10000. -/
def candidatePairs (recs : List Record) (rules : List (Record → Record → Bool)) :
    List (Record × Record) :=
  (joinPairs recs rules).take 10000

/-- A row of the scored_pairs CTE restricted to the columns the
surrounding query reads: the two ids, the summed match weight and the
match probability. -/
structure ScoredPair where
  id_l : Nat
  id_r : Nat
  match_weight : ℚ
  match_probability : ℚ
  deriving DecidableEq, Repr

/-- Scoring of one candidate pair in the scored_pairs CTE: each
comparison contributes the value of its generated weight column, the
match_weight column is their SQL sum, and the match_probability column
applies the logistic transform probFn to it (the analytic form of
probFn is studied separately over the reals). -/
def scorePair (comps : List (Record → Record → ℚ)) (probFn : ℚ → ℚ)
    (p : Record × Record) : ScoredPair :=
  let w : ℚ := (comps.map (fun c => c p.1 p.2)).sum
  ⟨p.1.id, p.2.id, w, probFn w⟩

/-- The ORDER BY match_probability DESC ordering of the final SELECT. -/
def probGE (a b : ScoredPair) : Prop :=
  b.match_probability ≤ a.match_probability

instance : DecidableRel probGE :=
  fun a b => inferInstanceAs (Decidable (b.match_probability ≤ a.match_probability))

instance : IsTotal ScoredPair probGE :=
  ⟨fun a b => le_total b.match_probability a.match_probability⟩

instance : IsTrans ScoredPair probGE :=
  ⟨fun _ _ _ hab hbc => le_trans hbc hab⟩

/-- The full predict SQL of SplinkCompatibleMatcher.predict: score the
(limited) candidate pairs, keep rows with match_probability at least the
threshold, order by match_probability descending and apply
LIMIT max_pairs. -/
def predictRows (recs : List Record) (rules : List (Record → Record → Bool))
    (comps : List (Record → Record → ℚ)) (probFn : ℚ → ℚ)
    (threshold : ℚ) (maxPairs : Nat) : List ScoredPair :=
  let scored := (candidatePairs recs rules).map (scorePair comps probFn)
  let kept := scored.filter (fun s => decide (threshold ≤ s.match_probability))
  (List.insertionSort probGE kept).take maxPairs

/-- Unfolding of membership in the candidate_pairs CTE body: a pair is
in joinPairs exactly when both rows come from the table, the blocking
condition holds and the left id is smaller. -/
theorem mem_joinPairs {recs : List Record} {rules : List (Record → Record → Bool)}
    {l r : Record} :
    (l, r) ∈ joinPairs recs rules ↔
      (l ∈ recs ∧ r ∈ recs) ∧ (blockingPred rules l r = true ∧ l.id < r.id) := by
  unfold joinPairs
  rw [List.mem_dedup, List.mem_filter]
  constructor
  · rintro ⟨hp, hc⟩
    rw [Bool.and_eq_true, decide_eq_true_eq] at hc
    exact ⟨List.mem_product.mp hp, hc⟩
  · rintro ⟨hp, hc⟩
    refine ⟨List.mem_product.mpr hp, ?_⟩
    rw [Bool.and_eq_true, decide_eq_true_eq]
    exact hc

/-- Every candidate pair comes from the pre-limit join. -/
theorem mem_candidatePairs_mem_joinPairs {recs rules} {p : Record × Record}
    (h : p ∈ candidatePairs recs rules) : p ∈ joinPairs recs rules :=
  (List.take_sublist _ _).subset h

/-- Every candidate pair has strictly increasing ids. -/
theorem candidatePairs_lt {recs rules} {p : Record × Record}
    (h : p ∈ candidatePairs recs rules) : p.1.id < p.2.id := by
  have h2 := mem_candidatePairs_mem_joinPairs h
  obtain ⟨l, r⟩ := p
  exact (mem_joinPairs.mp h2).2.2

/-- Both components of a candidate pair are rows of the input table. -/
theorem candidatePairs_mem {recs rules} {p : Record × Record}
    (h : p ∈ candidatePairs recs rules) : p.1 ∈ recs ∧ p.2 ∈ recs := by
  have h2 := mem_candidatePairs_mem_joinPairs h
  obtain ⟨l, r⟩ := p
  exact (mem_joinPairs.mp h2).1

/-- The candidate-pair list is duplicate-free (SELECT DISTINCT followed
by LIMIT). -/
theorem candidatePairs_nodup (recs : List Record)
    (rules : List (Record → Record → Bool)) :
    (candidatePairs recs rules).Nodup :=
  (List.take_sublist _ _).nodup (List.nodup_dedup _)

/-- A duplicate-free list whose elements are pairwise equal has at most
one element. -/
theorem length_le_one_of_nodup_of_allEq {α : Type} {F : List α}
    (hn : F.Nodup) (he : ∀ x ∈ F, ∀ y ∈ F, x = y) : F.length ≤ 1 := by
  match F, hn with
  | [], _ => simp
  | [x], _ => simp
  | x :: y :: rest, hn =>
    exfalso
    have hxy : x = y := he x (by simp) y (by simp)
    have := (List.nodup_cons.mp hn).1
    exact this (hxy ▸ List.mem_cons_self y rest)

/-- C7: in deduplication mode every candidate pair satisfies
left_id < right_id, hence no self-pairs, and under unique input ids each
unordered id pair appears at most once in the candidate set. -/
theorem candidatePairs_canonical (recs : List Record)
    (rules : List (Record → Record → Bool))
    (hids : (recs.map Record.id).Nodup) :
    (∀ p ∈ candidatePairs recs rules, p.1.id < p.2.id) ∧
    (∀ p ∈ candidatePairs recs rules, p.1.id ≠ p.2.id) ∧
    (∀ a b : Nat,
      ((candidatePairs recs rules).filter
        (fun p => decide ((p.1.id = a ∧ p.2.id = b) ∨ (p.1.id = b ∧ p.2.id = a)))).length ≤ 1) := by
  have hinj : ∀ x ∈ recs, ∀ y ∈ recs, x.id = y.id → x = y :=
    List.inj_on_of_nodup_map hids
  refine ⟨fun p hp => candidatePairs_lt hp,
    fun p hp => Nat.ne_of_lt (candidatePairs_lt hp), fun a b => ?_⟩
  apply length_le_one_of_nodup_of_allEq
  · exact (List.filter_sublist _).nodup (candidatePairs_nodup recs rules)
  · intro x hx y hy
    have hx2 := List.mem_filter.mp hx
    have hy2 := List.mem_filter.mp hy
    have hxids : (x.1.id = a ∧ x.2.id = b) ∨ (x.1.id = b ∧ x.2.id = a) := by
      simpa using hx2.2
    have hyids : (y.1.id = a ∧ y.2.id = b) ∨ (y.1.id = b ∧ y.2.id = a) := by
      simpa using hy2.2
    have hxlt := candidatePairs_lt hx2.1
    have hylt := candidatePairs_lt hy2.1
    have hxmem := candidatePairs_mem hx2.1
    have hymem := candidatePairs_mem hy2.1
    have hsame : x.1.id = y.1.id ∧ x.2.id = y.2.id := by
      rcases hxids with ⟨hxa, hxb⟩ | ⟨hxb, hxa⟩ <;>
        rcases hyids with ⟨hya, hyb⟩ | ⟨hyb, hya⟩ <;>
          constructor <;> omega
    have h1 : x.1 = y.1 := hinj _ hxmem.1 _ hymem.1 hsame.1
    have h2 : x.2 = y.2 := hinj _ hxmem.2 _ hymem.2 hsame.2
    exact Prod.ext h1 h2

/-- C7 witness: two records with equal city-like names, one blocking
rule that always fires; the candidate set is the single ordered pair. -/
theorem candidatePairs_canonical_witness :
    (([⟨1, "Ana"⟩, ⟨2, "Ana"⟩] : List Record).map Record.id).Nodup ∧
    (∀ p ∈ candidatePairs [⟨1, "Ana"⟩, ⟨2, "Ana"⟩] [fun _ _ => true], p.1.id < p.2.id) := by
  refine ⟨by decide, ?_⟩
  exact (candidatePairs_canonical [⟨1, "Ana"⟩, ⟨2, "Ana"⟩] [fun _ _ => true] (by decide)).1

/-- C9: the predict query returns only rows at or above the threshold,
sorted by non-increasing match probability, at most max_pairs of them,
and scores at most 10000 candidate pairs. -/
theorem predict_filter_sort_limit (recs : List Record)
    (rules : List (Record → Record → Bool))
    (comps : List (Record → Record → ℚ)) (probFn : ℚ → ℚ)
    (threshold : ℚ) (maxPairs : Nat) :
    (∀ s ∈ predictRows recs rules comps probFn threshold maxPairs,
      threshold ≤ s.match_probability) ∧
    List.Sorted probGE (predictRows recs rules comps probFn threshold maxPairs) ∧
    (predictRows recs rules comps probFn threshold maxPairs).length ≤ maxPairs ∧
    (candidatePairs recs rules).length ≤ 10000 := by
  refine ⟨?_, ?_, ?_, List.length_take_le _ _⟩
  · intro s hs
    have h1 : s ∈ List.insertionSort probGE
        (((candidatePairs recs rules).map (scorePair comps probFn)).filter
          (fun s => decide (threshold ≤ s.match_probability))) :=
      (List.take_sublist _ _).subset hs
    have h2 := (List.perm_insertionSort probGE _).subset h1
    have := (List.mem_filter.mp h2).2
    simpa using this
  · exact List.Pairwise.sublist (List.take_sublist _ _)
      (List.sorted_insertionSort probGE _)
  · exact List.length_take_le _ _

/-- Refinement target for the empty-rule fallback, following the words
of the specification: with zero rules every distinct record pair (in
canonical order) of the full cross-product becomes a candidate. -/
def specFullCrossPairs (recs : List Record) : List (Record × Record) :=
  (recs.product recs).filter (fun p => decide (p.1.id < p.2.id))

/-- Backend engine run_resolution: using_full_comparison is true exactly
when the blocking-rule list is empty. -/
def usingFullComparison {α : Type} (blockingRules : List α) : Bool :=
  blockingRules.isEmpty

/-- Backend engine run_resolution: a slowness warning is printed when
the row count exceeds 10000 (the run continues either way). -/
def largeDatasetWarning (count : Nat) : Bool :=
  decide (10000 < count)

/-- C2 counterexample: with zero blocking rules the worker does not fall
back to the full cross-product; the pair (1 Alice, 2 Bob) is a distinct
record pair of the cross-product but is not a candidate, because the
default fallback blocks on the first letter of the name. -/
theorem empty_rules_not_full_cross_product :
    ((⟨1, "Alice"⟩, ⟨2, "Bob"⟩) : Record × Record) ∈
        specFullCrossPairs [⟨1, "Alice"⟩, ⟨2, "Bob"⟩] ∧
    ((⟨1, "Alice"⟩, ⟨2, "Bob"⟩) : Record × Record) ∉
        candidatePairs [⟨1, "Alice"⟩, ⟨2, "Bob"⟩] [] := by
  constructor
  · simp [specFullCrossPairs, List.mem_filter, List.mem_product]
  · intro h
    have := mem_joinPairs.mp (mem_candidatePairs_mem_joinPairs h)
    have hblock := this.2.1
    rw [show blockingPred [] ⟨1, "Alice"⟩ ⟨2, "Bob"⟩ =
        defaultBlockingPred ⟨1, "Alice"⟩ ⟨2, "Bob"⟩ from rfl] at hblock
    exact absurd hblock (by decide)

/-- C2 amended: with zero rules the worker blocks on the first character
of the name column (a pair is a candidate join row exactly when both
records are in the table, their names share a first character, and the
left id is smaller), while the backend engine flags the empty rule set
as full comparison and warns, without failing, when the dataset exceeds
10000 rows. -/
theorem empty_rules_default_blocking (recs : List Record) (l r : Record) :
    ((l, r) ∈ joinPairs recs [] ↔
      (l ∈ recs ∧ r ∈ recs) ∧ (l.name.take 1 = r.name.take 1 ∧ l.id < r.id)) ∧
    usingFullComparison ([] : List String) = true ∧
    largeDatasetWarning 10001 = true ∧ largeDatasetWarning 10000 = false := by
  refine ⟨?_, by decide, by decide, by decide⟩
  rw [mem_joinPairs]
  simp [blockingPred, defaultBlockingPred]

/-- Per-level Fellegi-Sunter weight of _generate_comparison_sql: when
u_probability > 0 the weight is math.log2(m_probability / u_probability)
(a domain error of the logarithm, raised when the quotient is not
positive, is embedded as none); otherwise the fixed sentinel weight 10.0
is used. -/
noncomputable def levelWeight (m u : ℝ) : Option ℝ :=
  if 0 < u then
    if 0 < m / u then some (Real.logb 2 (m / u)) else none
  else some 10

/-- The CASE expression generated by _generate_comparison_sql for one
comparison: the first level whose sql condition holds on the pair
contributes its weight, with ELSE -2.0. -/
noncomputable def caseWeight : List (Bool × ℝ) → ℝ
  | [] => -2
  | (c, w) :: rest => if c then w else caseWeight rest

/-- The total match weight column of the predict SQL: the SQL sum of the
per-comparison weight columns. -/
noncomputable def totalMatchWeight (ws : List ℝ) : ℝ :=
  ws.sum

/-- The match_probability column of the predict SQL:
1.0 / (1.0 + exp(-(total_weight))), with the natural exponential. -/
noncomputable def matchProbability (w : ℝ) : ℝ :=
  1 / (1 + Real.exp (-w))

/-- Refinement target, following the words of the specification: the
match probability claimed there is 1/(1+2^(-total_weight)). -/
noncomputable def specMatchProbability (w : ℝ) : ℝ :=
  1 / (1 + (2 : ℝ) ^ (-w))

/-- C8: a comparison level with positive u_probability (and a positive
probability ratio, so that the logarithm is defined) gets match weight
log2(m_probability / u_probability); with u_probability = 0 it gets the
fixed sentinel weight 10. -/
theorem levelWeight_log2 (m u : ℝ) (hu : 0 < u) (hm : 0 < m) :
    levelWeight m u = some (Real.logb 2 (m / u)) ∧ levelWeight m 0 = some 10 := by
  constructor
  · unfold levelWeight
    rw [if_pos hu, if_pos (div_pos hm hu)]
  · unfold levelWeight
    rw [if_neg (lt_irrefl 0)]

/-- C8 witness: instantiation at m_probability 0.9 and
u_probability 0.01 (the default values of the worker). -/
theorem levelWeight_log2_witness :
    (0 : ℝ) < 1 / 100 ∧ (0 : ℝ) < 9 / 10 ∧
      levelWeight (9 / 10) (1 / 100) = some (Real.logb 2 ((9 / 10) / (1 / 100))) ∧
      levelWeight (9 / 10) 0 = some 10 :=
  ⟨by norm_num, by norm_num,
    (levelWeight_log2 (9 / 10) (1 / 100) (by norm_num) (by norm_num)).1,
    (levelWeight_log2 (9 / 10) (1 / 100) (by norm_num) (by norm_num)).2⟩

/-- The natural-exponential logistic and the base-two logistic disagree
at total weight 2: exp(-2) < 1/4 = 2^(-2). -/
theorem exp_neg_two_lt_quarter : Real.exp (-2) < (2 : ℝ) ^ (-(2 : ℝ)) := by
  have h2 : (2 : ℝ) ^ (-(2 : ℝ)) = 1 / 4 := by
    rw [show (-(2 : ℝ)) = ((-2 : ℤ) : ℝ) by norm_num, Real.rpow_intCast]
    norm_num
  have h1 : (2.7182818283 : ℝ) < Real.exp 1 := Real.exp_one_gt_d9
  have h4 : (4 : ℝ) < Real.exp 2 := by
    rw [show (2 : ℝ) = 1 + 1 by norm_num, Real.exp_add]
    nlinarith [Real.exp_pos 1]
  rw [h2, Real.exp_neg]
  rw [show (1 : ℝ) / 4 = 4⁻¹ by norm_num]
  exact inv_strictAnti₀ (by norm_num) h4

/-- C1 counterexample: for the concrete scored pair whose single
comparison level fires (the default exact-match comparison, weight 2.0),
the match probability computed by the code, 1/(1+exp(-2)), differs from
the value 1/(1+2^(-2)) stated by the claim. -/
theorem matchProbability_ne_spec :
    matchProbability (caseWeight [(true, 2)]) ≠
      specMatchProbability (caseWeight [(true, 2)]) := by
  have hw : caseWeight [(true, 2)] = 2 := by
    unfold caseWeight
    rw [if_pos rfl]
  rw [hw]
  unfold matchProbability specMatchProbability
  have hlt := exp_neg_two_lt_quarter
  have hgt : 1 / (1 + (2 : ℝ) ^ (-(2 : ℝ))) < 1 / (1 + Real.exp (-2)) := by
    apply one_div_lt_one_div_of_lt
    · nlinarith [Real.exp_pos (-2)]
    · linarith
  exact fun h => absurd h (ne_of_gt hgt)

/-- C1 amended: total_weight is the sum of the per-attribute weights,
and match_probability is the natural-exponential logistic
1/(1+exp(-total_weight)), equivalently 1/(1+e^(-total_weight)) with the
real power of e = exp 1, not the base-two logistic of the claim. -/
theorem totalWeight_sum_and_probability (ws : List ℝ) :
    totalMatchWeight ws = ws.sum ∧
    matchProbability (totalMatchWeight ws) =
      1 / (1 + Real.exp 1 ^ (-(totalMatchWeight ws))) := by
  refine ⟨rfl, ?_⟩
  unfold matchProbability
  rw [Real.exp_one_rpow]

/-- One conjunct of a frontend JSON blocking rule as consumed by
RuleTranspiler.compile_part: an optional field name, a method name and a
parameter dictionary (numeric parameter values embedded as their
rendered literals, which compile_part only splices into SQL text). -/
structure RulePart where
  field : Option String
  method : String
  parameters : List (String × String)
  deriving DecidableEq, Repr

/-- Dictionary lookup with default, as params.get(key, default). -/
def getParam (ps : List (String × String)) (key dflt : String) : String :=
  match ps.find? (fun kv => kv.1 = key) with
  | some kv => kv.2
  | none => dflt

/-- RuleTranspiler.compile_part: translate one rule conjunct to a SQL
condition; a missing or empty field yields None (the part is dropped),
an unrecognised method falls through to the final else branch. -/
def compile_part (part : RulePart) : Option String :=
  match part.field with
  | none => none
  | some field =>
    if field = "" then none
    else
      let l_field := if field.data.contains ' ' then "l.\"" ++ field ++ "\"" else "l." ++ field
      let r_field := if field.data.contains ' ' then "r.\"" ++ field ++ "\"" else "r." ++ field
      if part.method = "exact" then
        some (l_field ++ " = " ++ r_field)
      else if part.method = "fuzzy_levenshtein" then
        some ("levenshtein(" ++ l_field ++ ", " ++ r_field ++ ") <= " ++
          getParam part.parameters "threshold" "2")
      else if part.method = "jaro_winkler" then
        some ("jaro_winkler_similarity(" ++ l_field ++ ", " ++ r_field ++ ") > " ++
          getParam part.parameters "threshold" "0.9")
      else if part.method = "fuzzy_metaphone" then
        some ("soundex(" ++ l_field ++ ") = soundex(" ++ r_field ++ ")")
      else if part.method = "first_n_chars" then
        some ("SUBSTRING(" ++ l_field ++ ", 1, " ++ getParam part.parameters "n" "1" ++
          ") = SUBSTRING(" ++ r_field ++ ", 1, " ++ getParam part.parameters "n" "1" ++ ")")
      else
        some (l_field ++ " = " ++ r_field)

/-- RuleTranspiler.compile_rule: compile the parts, keep the successful
ones, and join them with AND; a rule with no usable part yields None. -/
def compile_rule (parts : List RulePart) : Option String :=
  let conditions := (parts.map compile_part).filterMap id
  if conditions.isEmpty then none
  else some (String.intercalate " AND " conditions)

/-- First character of an identifier in the validation regex of
splink_service.rule_is_valid. -/
def isIdentStart (c : Char) : Bool :=
  c.isAlpha || c = '_'

/-- Subsequent character of such an identifier. -/
def isIdentChar (c : Char) : Bool :=
  c.isAlphanum || c = '_'

/-- Longest identifier-character prefix and the rest of the input. -/
def takeIdent : List Char → List Char × List Char
  | [] => ([], [])
  | c :: rest =>
    if isIdentChar c then
      let (i, r) := takeIdent rest
      (c :: i, r)
    else ([], c :: rest)

/-- takeIdent never grows the remainder. -/
theorem takeIdent_snd_length (l : List Char) : (takeIdent l).2.length ≤ l.length := by
  induction l with
  | nil => simp [takeIdent]
  | cons c rest ih =>
    unfold takeIdent
    by_cases h : isIdentChar c = true
    · rw [if_pos h]
      exact le_trans ih (Nat.le_succ _)
    · rw [if_neg h]

/-- The scanner of re.findall over the validation pattern of
splink_service.rule_is_valid: every non-overlapping occurrence of the
letter l or r, a dot and an identifier yields the identifier (the
referenced column name); the scan resumes after each match.  The fuel
argument only bounds the recursion: every step consumes at least one
input character and exactly one unit of fuel, so starting the scan with
fuel equal to the input length never exhausts it. -/
def findColsAux : Nat → List Char → List String
  | 0, _ => []
  | _ + 1, [] => []
  | fuel + 1, c :: rest =>
    if c = 'l' || c = 'r' then
      match rest with
      | '.' :: d :: rest2 =>
        if isIdentStart d then
          String.mk (d :: (takeIdent rest2).1) :: findColsAux fuel (takeIdent rest2).2
        else
          findColsAux fuel rest
      | _ => findColsAux fuel rest
    else
      findColsAux fuel rest

/-- The column names referenced as l.column or r.column in a rule. -/
def findCols (l : List Char) : List String :=
  findColsAux l.length l

/-- splink_service.rule_is_valid: a blocking rule is kept only when
every column it references as l.column or r.column exists in the
ingested table schema. -/
def rule_is_valid (existing_columns : List String) (rule : String) : Bool :=
  (findCols rule.data).all (fun col => existing_columns.contains col)

/-- Filtering of the blocking-rule lists in
process_entity_resolution: invalid rules are removed before the settings
reach the linker. -/
def filterValidRules (existing_columns : List String) (rules : List String) : List String :=
  rules.filter (rule_is_valid existing_columns)

/-- C3 counterexample: a blocking-rule part with an unknown method is
not dropped; compile_part falls through to exact equality on the field,
producing the same SQL as the exact method. -/
theorem compile_part_unknown_method_not_dropped :
    compile_part ⟨some "city", "totally_bogus", []⟩ ≠ none ∧
    compile_part ⟨some "city", "totally_bogus", []⟩ = some "l.city = r.city" ∧
    compile_part ⟨some "city", "totally_bogus", []⟩ =
      compile_part ⟨some "city", "exact", []⟩ := by
  refine ⟨?_, by decide, by decide⟩
  decide

/-- C3 amended: a blocking rule referencing a column absent from the
schema is dropped by rule_is_valid, and the filtered rule list is
identical to the one obtained by omitting that rule, so the run cannot
be affected by it; a rule part without a field is dropped by
compile_part; but a part with an unknown method is not dropped — it is
compiled exactly like the exact method. -/
theorem invalid_rule_dropped (schema : List String) (r : String)
    (pre post : List String) (hinvalid : rule_is_valid schema r = false)
    (p : RulePart) (f : String) (hf : p.field = some f)
    (hme : p.method ≠ "exact") (hml : p.method ≠ "fuzzy_levenshtein")
    (hmj : p.method ≠ "jaro_winkler") (hmm : p.method ≠ "fuzzy_metaphone")
    (hmn : p.method ≠ "first_n_chars") (m : String) (ps : List (String × String)) :
    filterValidRules schema (pre ++ r :: post) = filterValidRules schema (pre ++ post) ∧
    compile_part ⟨none, m, ps⟩ = none ∧
    compile_part p = compile_part ⟨some f, "exact", p.parameters⟩ := by
  refine ⟨?_, rfl, ?_⟩
  · unfold filterValidRules
    rw [List.filter_append, List.filter_append, List.filter_cons_of_neg]
    simp [hinvalid]
  · obtain ⟨pf, pm, pp⟩ := p
    simp only [RulePart.field.eq_1] at hf
    simp only [RulePart.method.eq_1] at hme hml hmj hmm hmn
    subst hf
    simp only [compile_part]
    by_cases hempty : f = ""
    · rw [if_pos hempty, if_pos hempty]
    · rw [if_neg hempty, if_neg hempty]
      rw [if_neg hme, if_neg hml, if_neg hmj, if_neg hmm, if_neg hmn]
      simp

/-- C3 witness: the schema has only a name column; the rule on city is
invalid and filtered out, and a part with method soundexish on name
compiles like exact. -/
theorem invalid_rule_dropped_witness :
    rule_is_valid ["name"] "l.city = r.city" = false ∧
    filterValidRules ["name"] ["l.name = r.name", "l.city = r.city"] =
      filterValidRules ["name"] ["l.name = r.name"] ∧
    compile_part ⟨some "name", "soundexish", []⟩ =
      compile_part ⟨some "name", "exact", []⟩ := by
  refine ⟨by decide, ?_, ?_⟩
  · exact (invalid_rule_dropped ["name"] "l.city = r.city" ["l.name = r.name"] []
      (by decide) ⟨some "name", "soundexish", []⟩ "name" rfl
      (by decide) (by decide) (by decide) (by decide) (by decide) "m" []).1
  · exact (invalid_rule_dropped ["name"] "l.city = r.city" ["l.name = r.name"] []
      (by decide) ⟨some "name", "soundexish", []⟩ "name" rfl
      (by decide) (by decide) (by decide) (by decide) (by decide) "m" []).2.2

/-- Match counting of EntityResolutionEngine.analyze_thresholds: the
number of prediction rows whose match_probability is at least the
threshold (df[df[match_probability] >= threshold]). -/
def matchCount (probs : List ℚ) (t : ℚ) : Nat :=
  (probs.filter (fun p => decide (t ≤ p))).length

/-- C5: for a fixed already-scored prediction set and thresholds t1 < t2,
the match count at t2 is at most the match count at t1. -/
theorem analyze_thresholds_matchCount_antitone
    (probs : List ℚ) (t1 t2 : ℚ) (h : t1 < t2) :
    matchCount probs t2 ≤ matchCount probs t1 := by
  unfold matchCount
  rw [← List.countP_eq_length_filter, ← List.countP_eq_length_filter]
  exact List.countP_mono_left (fun p _ hp => by
    simp only [decide_eq_true_eq] at hp ⊢
    exact le_trans (le_of_lt h) hp)

/-- C5 witness: instantiation at the prediction set [0.9, 0.6, 0.2] and
thresholds 0.5 < 0.8. -/
theorem analyze_thresholds_matchCount_antitone_witness :
    (1 : ℚ) / 2 < 4 / 5 ∧
      matchCount [9/10, 6/10, 2/10] (4/5) ≤ matchCount [9/10, 6/10, 2/10] (1/2) :=
  ⟨by norm_num,
    analyze_thresholds_matchCount_antitone [9/10, 6/10, 2/10] (1/2) (4/5) (by norm_num)⟩

/-- A stored prediction row of the backend engine (columns unique_id_l,
unique_id_r, match_probability of the predictions table). -/
structure PredRow where
  unique_id_l : String
  unique_id_r : String
  match_probability : ℚ
  deriving DecidableEq, Repr

/-- The descending-probability order of the get_clusters query. -/
def predRowGE (a b : PredRow) : Prop :=
  b.match_probability ≤ a.match_probability

instance : DecidableRel predRowGE :=
  fun a b => inferInstanceAs (Decidable (b.match_probability ≤ a.match_probability))

/-- The mutable per-session state of EntityResolutionEngine: whether a
linker was initialised, the prediction set if one was produced, and the
cluster table Splink computes for a threshold (the transitive-closure
clustering itself runs in the external splink library; its output table
of (unique_id, cluster_id) rows is carried here as data). -/
structure EngineState where
  linker : Bool
  predictions : Option (List PredRow)
  clusterAt : ℚ → List (String × String)

/-- EntityResolutionEngine.get_clusters: with no predictions it returns
the empty list; otherwise the prediction rows at or above the threshold,
ordered by descending match probability. -/
def get_clusters (st : EngineState) (threshold : ℚ) : List PredRow :=
  match st.predictions with
  | none => []
  | some rows =>
    List.insertionSort predRowGE
      (rows.filter (fun r => decide (threshold ≤ r.match_probability)))

/-- The size_category labels of the get_cluster_stats SQL. -/
def sizeCategory (n : Nat) : String :=
  if n = 1 then "Singletons"
  else if n = 2 then "Pairs"
  else if n = 3 then "Triplets"
  else "Large Groups (4+)"

/-- Cluster sizes: one row per distinct cluster_id with its member
count (the cluster_counts CTE of get_cluster_stats). -/
def clusterSizes (tbl : List (String × String)) : List (String × Nat) :=
  (tbl.map Prod.snd).dedup.map
    (fun cid => (cid, (tbl.map Prod.snd).count cid))

/-- The category ordering of the final ORDER BY size_category. -/
def catRel (a b : String × Nat) : Prop :=
  a.1 ≤ b.1

instance : DecidableRel catRel :=
  fun a b => inferInstanceAs (Decidable (a.1 ≤ b.1))

/-- EntityResolutionEngine.get_cluster_stats: with no linker or no
predictions it returns the empty list; otherwise the per-category counts
of cluster sizes, ordered by category label. -/
def get_cluster_stats (st : EngineState) (threshold : ℚ) : List (String × Nat) :=
  if st.linker = false ∨ st.predictions = none then []
  else
    let cats := (clusterSizes (st.clusterAt threshold)).map (fun s => sizeCategory s.2)
    List.insertionSort catRel (cats.dedup.map (fun c => (c, cats.count c)))

/-- A row of the merged cluster output of get_clusters_data: the record
id, its cluster id and the cluster size. -/
structure MergedRow where
  unique_id : String
  cluster_id : String
  cluster_size : Nat
  deriving DecidableEq, Repr

/-- The pandas left merge of the original records with the cluster
assignments on unique_id: every original row is kept; each matching
cluster row produces one output row, and a record with no match gets a
null cluster id. -/
def leftMergeClusters (orig : List String) (clusters : List (String × String)) :
    List (String × Option String) :=
  orig.flatMap (fun uid =>
    let ms := clusters.filter (fun c => c.1 = uid)
    if ms.isEmpty then [(uid, none)] else ms.map (fun c => (uid, some c.2)))

/-- The singleton assignment of get_clusters_data: records with a null
cluster id receive the stable id singleton_ followed by their own
unique id. -/
def assignSingletons (rows : List (String × Option String)) : List (String × String) :=
  rows.map (fun r => (r.1,
    match r.2 with
    | some cid => cid
    | none => "singleton_" ++ r.1))

/-- The cluster_size column: each row is annotated with the number of
rows sharing its cluster id (groupby cluster_id size, mapped back). -/
def withClusterSizes (rows : List (String × String)) : List MergedRow :=
  rows.map (fun r => ⟨r.1, r.2, rows.countP (fun s => decide (s.2 = r.2))⟩)

/-- The sort_values([cluster_size, cluster_id], ascending=[False, True])
ordering of the merged output. -/
def mergedRowRel (a b : MergedRow) : Prop :=
  b.cluster_size < a.cluster_size ∨
    (a.cluster_size = b.cluster_size ∧ a.cluster_id ≤ b.cluster_id)

instance : DecidableRel mergedRowRel :=
  fun a b => inferInstanceAs (Decidable
    (b.cluster_size < a.cluster_size ∨
      (a.cluster_size = b.cluster_size ∧ a.cluster_id ≤ b.cluster_id)))

/-- The merged cluster output of get_clusters_data: left merge, singleton
assignment, cluster sizes, and the final sort. -/
def mergedClusterRows (orig : List String) (clusters : List (String × String)) :
    List MergedRow :=
  List.insertionSort mergedRowRel
    (withClusterSizes (assignSingletons (leftMergeClusters orig clusters)))

/-- EntityResolutionEngine.get_clusters_data: with no predictions it
raises ValueError (No predictions available); otherwise it returns the
merged cluster output. -/
def get_clusters_data (st : EngineState) (orig : List String) (threshold : ℚ) :
    Except String (List MergedRow) :=
  match st.predictions with
  | none => Except.error "No predictions available. Run matching first."
  | some _ => Except.ok (mergedClusterRows orig (st.clusterAt threshold))

/-- The cluster id a merged record ends up with: the id computed by the
clustering when the record has one, else the singleton id derived from
its unique id. -/
def expectedClusterId (clusters : List (String × String)) (uid : String) : String :=
  match (clusters.find? (fun c => c.1 = uid)).map Prod.snd with
  | some cid => cid
  | none => "singleton_" ++ uid

/-- An engine state with an initialised linker and no predictions. -/
def stNoPred : EngineState :=
  ⟨true, none, fun _ => []⟩

/-- An engine state with an empty (but existing) prediction set. -/
def stEmptyPred : EngineState :=
  ⟨true, some [], fun _ => []⟩

/-- C4 counterexample: requesting clusters or cluster statistics before
any prediction set exists does not surface an error value; get_clusters
and get_cluster_stats return the same plain empty list a successful run
with an empty prediction set returns, so the caller cannot distinguish
the precondition failure from an empty result. -/
theorem get_clusters_silently_defaults :
    get_clusters stNoPred (9 / 10) = get_clusters stEmptyPred (9 / 10) ∧
    get_cluster_stats stNoPred (9 / 10) = get_cluster_stats stEmptyPred (9 / 10) ∧
    get_clusters stNoPred (9 / 10) = [] ∧
    get_cluster_stats stNoPred (9 / 10) = [] := by
  refine ⟨?_, ?_, rfl, rfl⟩
  · rfl
  · rfl

/-- C4 amended: before a prediction set exists, get_clusters_data alone
surfaces an explicit precondition failure (the ValueError with the
No-predictions message), while get_clusters and get_cluster_stats
silently return the empty list. -/
theorem not_ready_behavior (st : EngineState) (orig : List String) (t : ℚ)
    (h : st.predictions = none) :
    get_clusters_data st orig t =
      Except.error "No predictions available. Run matching first." ∧
    get_clusters st t = [] ∧
    get_cluster_stats st t = [] := by
  refine ⟨?_, ?_, ?_⟩
  · unfold get_clusters_data
    rw [h]
  · unfold get_clusters
    rw [h]
  · unfold get_cluster_stats
    rw [if_pos (Or.inr h)]

/-- C4 witness: instantiation at the concrete no-prediction state. -/
theorem not_ready_behavior_witness :
    stNoPred.predictions = none ∧
    get_clusters_data stNoPred ["1"] (1 / 2) =
      Except.error "No predictions available. Run matching first." ∧
    get_clusters stNoPred (1 / 2) = [] ∧
    get_cluster_stats stNoPred (1 / 2) = [] :=
  ⟨rfl,
    (not_ready_behavior stNoPred ["1"] (1 / 2) rfl).1,
    (not_ready_behavior stNoPred ["1"] (1 / 2) rfl).2.1,
    (not_ready_behavior stNoPred ["1"] (1 / 2) rfl).2.2⟩

/-- With duplicate-free cluster keys, filtering the cluster table for
one id yields the optional first match. -/
theorem filter_eq_find_toList (clusters : List (String × String)) (uid : String)
    (h : (clusters.map Prod.fst).Nodup) :
    clusters.filter (fun c => decide (c.1 = uid)) =
      (clusters.find? (fun c => decide (c.1 = uid))).toList := by
  induction clusters with
  | nil => simp
  | cons c rest ih =>
    rw [List.map_cons] at h
    have hn := List.nodup_cons.mp h
    by_cases hc : c.1 = uid
    · rw [List.filter_cons_of_pos (by simp [hc]), List.find?_cons_of_pos _ (by simp [hc])]
      have hrest : rest.filter (fun c => decide (c.1 = uid)) = [] := by
        rw [List.filter_eq_nil_iff]
        intro x hx
        simp only [decide_eq_true_eq]
        intro hxeq
        exact hn.1 (by
          rw [hc, ← hxeq]
          exact List.mem_map_of_mem Prod.fst hx)
      rw [hrest]
      rfl
    · rw [List.filter_cons_of_neg (by simp [hc]), List.find?_cons_of_neg _ (by simp [hc])]
      exact ih hn.2

/-- With duplicate-free cluster keys, the left merge produces exactly
one row per original record, carrying the looked-up cluster id. -/
theorem leftMerge_eq_map (orig : List String) (clusters : List (String × String))
    (h : (clusters.map Prod.fst).Nodup) :
    leftMergeClusters orig clusters =
      orig.map (fun uid => (uid, (clusters.find? (fun c => decide (c.1 = uid))).map Prod.snd)) := by
  unfold leftMergeClusters
  induction orig with
  | nil => rfl
  | cons uid rest ih =>
    rw [List.flatMap_cons, List.map_cons, ih]
    rw [filter_eq_find_toList clusters uid h]
    cases hfind : clusters.find? (fun c => decide (c.1 = uid)) with
    | none => rfl
    | some c => rfl

/-- In a duplicate-free list every member is counted exactly once. -/
theorem countP_eq_one_of_nodup {l : List String} (h : l.Nodup) {uid : String}
    (hm : uid ∈ l) :
    l.countP (fun x => decide (x = uid)) = 1 := by
  induction l with
  | nil => cases hm
  | cons a rest ih =>
    rw [List.countP_cons]
    have hcons := List.nodup_cons.mp h
    rcases List.mem_cons.mp hm with rfl | hmem
    · have hz : rest.countP (fun x => decide (x = uid)) = 0 := by
        rw [List.countP_eq_zero]
        intro x hx
        simp only [decide_eq_true_eq]
        exact fun he => hcons.1 (he ▸ hx)
      simp [hz]
    · have ha : ¬(a = uid) := fun he => hcons.1 (he ▸ hmem)
      rw [ih hcons.2 hmem]
      simp [ha]

/-- C6: for duplicate-free record ids and cluster keys, every source
record appears in exactly one row of the merged cluster output, the
output has exactly one row per record, and each row carries the computed
cluster id or, failing that, the singleton id derived from the record
id. -/
theorem clusters_data_partition (orig : List String) (clusters : List (String × String))
    (horig : orig.Nodup) (hkeys : (clusters.map Prod.fst).Nodup) :
    (∀ uid ∈ orig,
      (mergedClusterRows orig clusters).countP
        (fun row => decide (row.unique_id = uid)) = 1) ∧
    (∀ row ∈ mergedClusterRows orig clusters,
      row.cluster_id = expectedClusterId clusters row.unique_id) ∧
    (mergedClusterRows orig clusters).length = orig.length := by
  have hperm := List.perm_insertionSort mergedRowRel
    (withClusterSizes (assignSingletons (leftMergeClusters orig clusters)))
  have hmerge := leftMerge_eq_map orig clusters hkeys
  have hpre : withClusterSizes (assignSingletons (leftMergeClusters orig clusters)) =
      orig.map (fun uid =>
        (⟨uid, expectedClusterId clusters uid,
          (assignSingletons (leftMergeClusters orig clusters)).countP
            (fun s => decide (s.2 = expectedClusterId clusters uid))⟩ : MergedRow)) := by
    unfold withClusterSizes assignSingletons
    rw [hmerge, List.map_map, List.map_map]
    apply List.map_congr_left
    intro uid _
    rfl
  refine ⟨?_, ?_, ?_⟩
  · intro uid hm
    unfold mergedClusterRows
    rw [hperm.countP_eq, hpre, List.countP_map]
    exact countP_eq_one_of_nodup horig hm
  · intro row hrow
    have hrow2 : row ∈ withClusterSizes (assignSingletons (leftMergeClusters orig clusters)) :=
      hperm.subset hrow
    rw [hpre] at hrow2
    obtain ⟨uid, _, rfl⟩ := List.mem_map.mp hrow2
    rfl
  · unfold mergedClusterRows
    rw [hperm.length_eq, hpre, List.length_map]

/-- C6 witness: three records, two of them clustered together; the
merged output has exactly one row per record and the unclustered record
gets its singleton id. -/
theorem clusters_data_partition_witness :
    (["1", "2", "3"] : List String).Nodup ∧
    (∀ uid ∈ (["1", "2", "3"] : List String),
      (mergedClusterRows ["1", "2", "3"] [("1", "c0"), ("2", "c0")]).countP
        (fun row => decide (row.unique_id = uid)) = 1) :=
  ⟨by decide,
    (clusters_data_partition ["1", "2", "3"] [("1", "c0"), ("2", "c0")]
      (by decide) (by decide)).1⟩

/-- The result object a top-level entity-resolution entry point hands
back to its caller: a success payload, or an error record carrying the
exception message (the status field is derived below). -/
inductive ResolutionOutcome (α : Type) where
  | success (payload : α)
  | failure (error : String)
  deriving DecidableEq, Repr

/-- The status field of the returned JSON object. -/
def ResolutionOutcome.status {α : Type} : ResolutionOutcome α → String
  | .success _ => "success"
  | .failure _ => "error"

/-- The error field of the returned JSON object (absent on success). -/
def ResolutionOutcome.errorMessage {α : Type} : ResolutionOutcome α → Option String
  | .success _ => none
  | .failure e => some e

/-- The worker entry point run_entity_resolution: json.loads of the
settings string and the predict call may each throw (the parsing and the
SQL execution are performed by external collaborators, so both fallible
steps are embedded as Except values); the surrounding try/except turns
any exception into an error result with the message attached, and the
normal path produces a success result with the matches and their
count. -/
def run_entity_resolution {σ : Type} (parsedSettings : Except String σ)
    (predictCall : σ → Except String (List ScoredPair)) :
    ResolutionOutcome (List ScoredPair × Nat) :=
  match parsedSettings with
  | .error e => .failure e
  | .ok s =>
    match predictCall s with
    | .error e => .failure e
    | .ok ms => .success (ms, ms.length)

/-- The backend entry point SplinkService.process_entity_resolution:
ingestion, settings conversion, the Splink run and the threshold filter
all run inside one try block (embedded together as one Except value);
any exception becomes an error result with the message, and the normal
path becomes a success result with the matches and total_pairs equal to
their number. -/
def process_entity_resolution (pipeline : Except String (List PredRow)) :
    ResolutionOutcome (List PredRow × Nat) :=
  match pipeline with
  | .error e => .failure e
  | .ok ms => .success (ms, ms.length)

/-- C10: the entry points are total functions of the outcomes of their
internal steps: the status is success exactly when every internal step
succeeded, the status is otherwise error with the message attached, and
on success total_pairs is the number of matches. -/
theorem entry_points_never_propagate {σ : Type} (parsedSettings : Except String σ)
    (predictCall : σ → Except String (List ScoredPair))
    (pipeline : Except String (List PredRow)) :
    ((run_entity_resolution parsedSettings predictCall).status = "success" ∨
      ((run_entity_resolution parsedSettings predictCall).status = "error" ∧
        ∃ e, (run_entity_resolution parsedSettings predictCall).errorMessage = some e)) ∧
    ((run_entity_resolution parsedSettings predictCall).status = "success" ↔
      ∃ s ms, parsedSettings = .ok s ∧ predictCall s = .ok ms) ∧
    ((process_entity_resolution pipeline).status = "success" ∨
      ((process_entity_resolution pipeline).status = "error" ∧
        ∃ e, (process_entity_resolution pipeline).errorMessage = some e)) ∧
    ((process_entity_resolution pipeline).status = "success" ↔
      ∃ ms, pipeline = .ok ms) ∧
    (∀ ms n, process_entity_resolution pipeline =
      ResolutionOutcome.success (ms, n) → n = ms.length) := by
  refine ⟨?_, ?_, ?_, ?_, ?_⟩
  · cases parsedSettings with
    | error e => exact Or.inr ⟨rfl, e, rfl⟩
    | ok s =>
      cases hp : predictCall s with
      | error e => exact Or.inr ⟨by simp [run_entity_resolution, hp,
          ResolutionOutcome.status], e, by simp [run_entity_resolution, hp,
          ResolutionOutcome.errorMessage]⟩
      | ok ms => exact Or.inl (by simp [run_entity_resolution, hp,
          ResolutionOutcome.status])
  · cases parsedSettings with
    | error e =>
      simp [run_entity_resolution, ResolutionOutcome.status]
    | ok s =>
      cases hp : predictCall s with
      | error e =>
        simp only [run_entity_resolution, hp, ResolutionOutcome.status]
        constructor
        · intro h
          exact absurd h (by decide)
        · rintro ⟨s2, ms, hs2, hms⟩
          rw [Except.ok.injEq] at hs2
          subst hs2
          rw [hp] at hms
          cases hms
      | ok ms =>
        simp only [run_entity_resolution, hp, ResolutionOutcome.status]
        refine ⟨fun _ => ⟨s, ms, rfl, hp⟩, fun _ => ?_⟩
        trivial
  · cases pipeline with
    | error e => exact Or.inr ⟨rfl, e, rfl⟩
    | ok ms => exact Or.inl rfl
  · cases pipeline with
    | error e =>
      simp only [process_entity_resolution, ResolutionOutcome.status]
      constructor
      · intro h
        exact absurd h (by decide)
      · rintro ⟨ms, hms⟩
        cases hms
    | ok ms =>
      simp only [process_entity_resolution, ResolutionOutcome.status]
      exact ⟨fun _ => ⟨ms, rfl⟩, fun _ => trivial⟩
  · intro ms n h
    cases pipeline with
    | error e => cases h
    | ok ms2 =>
      simp only [process_entity_resolution, ResolutionOutcome.success.injEq,
        Prod.mk.injEq] at h
      rcases h with ⟨h1, h2⟩
      subst h1
      exact h2.symm

end Entify
